import Mathlib

/-!
Shallow embedding of `src/saga.py`: the Saga execution / compensation engine.

Modelling conventions:
* Python values are the inductive `Value`; lists and tuples are both `Value.list`
  (the engine treats them identically via `isinstance(x, (list, tuple))`).
* A Python exception is `Exc`: its type name, its message, and the standalone
  traceback lines that `traceback.format_exc()` would render for it.
* A Python callable is `Callable`: the number of declared positional parameters
  (`co_argcount`), the number of further local-variable names appearing in
  `__code__.co_varnames`, and a pure body.  Calling it with the wrong number of
  positional arguments raises `TypeError` without entering the body, exactly as
  in Python.  `await` of an awaitable is the identity in this pure model, so
  async functions are modelled as direct calls.
* Mutation of the `Action` dataclass fields is modelled by returning updated
  records; `Saga.execute`'s in-place update of `self.steps` is modelled by the
  returned item list.
* Raising is modelled with `Except`; the trace of the saga run additionally
  records every invocation of an action or compensation callable (`Event`), so
  that "which callables were invoked, with which arguments, in which order" is
  observable.
-/

namespace SagaOrch

/-- Python values the engine can see: `None`, scalars, list/tuple, dict. -/
inductive Value where
  | none : Value
  | int : Int → Value
  | str : String → Value
  | list : List Value → Value
  | dict : List (String × Value) → Value

/-- A Python exception: type name, message, and the standalone traceback lines
that `traceback.format_exc()` renders for it when it is not chained. -/
structure Exc where
  name : String
  msg : String
  tb : List String

/-- The `TypeError` raised by Python's call machinery on a positional-argument
count mismatch (the callee's body never runs). -/
def typeError : Exc :=
  ⟨"TypeError", "positional argument count mismatch",
    ["TypeError: positional argument count mismatch"]⟩

/-- The `AttributeError` raised when `.compensate()` is looked up on a value
that is not an `Action` instance (see `Saga._run_compensations`). -/
def attributeError : Exc :=
  ⟨"AttributeError", "object has no attribute compensate",
    ["AttributeError: object has no attribute compensate"]⟩

/-- The `IndexError` raised by `self.steps[i]` when `i` is out of range. -/
def indexError : Exc :=
  ⟨"IndexError", "list index out of range",
    ["IndexError: list index out of range"]⟩

/-- A Python callable as the engine observes it: `params` declared positional
parameters, `locals` further local-variable names in `__code__.co_varnames`,
and a pure body run when the call succeeds arity checking. -/
structure Callable where
  params : Nat
  locals : Nat
  body : List Value → Except Exc Value

/-- Size of `__code__.co_varnames`: parameter names followed by local-variable
names.  Note this is NOT the number of declared parameters. -/
def Callable.co_varnames (f : Callable) : Nat := f.params + f.locals

/-- Truthiness of `__code__.co_varnames` (the test used by `Action.act` and
`Action.compensate` in the source). -/
def Callable.co_varnames_nonempty (f : Callable) : Bool := f.co_varnames != 0

/-- Calling a Python function with positional arguments: arity mismatch raises
`TypeError` before the body runs; otherwise the body runs on the arguments. -/
def call (f : Callable) (args : List Value) : Except Exc Value :=
  if args.length = f.params then f.body args else Except.error typeError

/-- The `Action` dataclass of `src/saga.py` (the spec's Step): a forward
action, its compensation, and the two fields mutated on action success, with
their dataclass defaults (`compensation_args = None`, `result = None`). -/
structure Action where
  action : Callable
  compensation : Callable
  compensation_args : Option (List Value) := Option.none
  result : Value := Value.none

/-- The positional arguments `Action.act` spreads into `self.action`:
`args if self.action.__code__.co_varnames else []`. -/
def Action.actPassedArgs (a : Action) (args : List Value) : List Value :=
  if a.action.co_varnames_nonempty then args else []

/-- `Action.act`: `self.action(*(args if self.action.__code__.co_varnames
else []))`, with `await` the identity in this pure model. -/
def Action.act (a : Action) (args : List Value) : Except Exc Value :=
  call a.action (a.actPassedArgs args)

/-- The spread `*(self.compensation_args if self.compensation.__code__.co_varnames
else [])` of `Action.compensate`: spreading `None` raises `TypeError`. -/
def Action.compPassedArgs (a : Action) : Except Exc (List Value) :=
  if a.compensation.co_varnames_nonempty then
    match a.compensation_args with
    | Option.some xs => Except.ok xs
    | Option.none => Except.error typeError
  else Except.ok []

/-- `Action.compensate`, instrumented: the first component is `some xs` when
the compensation callable was actually called with arguments `xs`, and `none`
when the argument spread itself raised; the second is the call's outcome. -/
def Action.compensateTr (a : Action) : Option (List Value) × Except Exc Value :=
  match a.compPassedArgs with
  | Except.ok xs => (Option.some xs, call a.compensation xs)
  | Except.error e => (Option.none, Except.error e)

/-- `Action.compensate`: the outcome of the compensation call. -/
def Action.compensate (a : Action) : Except Exc Value := a.compensateTr.2

/-- An element of `Saga.steps`: either an `Action` instance or any other
Python value (`Saga.execute` tests `isinstance(action, Action)`). -/
inductive Item where
  | step (a : Action)
  | other

/-- Observable invocation of a step's action or compensation callable, with
the zero-based step index and the positional arguments passed. -/
inductive Event where
  | actCall (idx : Nat) (args : List Value)
  | compCall (idx : Nat) (args : List Value)

/-- Indices of the compensation invocations in a trace, in trace order. -/
def compCallIdxs (evs : List Event) : List Nat :=
  evs.filterMap (fun e =>
    match e with
    | Event.compCall i _ => Option.some i
    | Event.actCall _ _ => Option.none)

/-- Result normalization in `Saga.execute`: `None` yields no arguments, a
list/tuple is spread, any other value becomes a one-element tuple. -/
def normalize (v : Value) : List Value :=
  match v with
  | Value.none => []
  | Value.list xs => xs
  | w => [w]

/-- Outcome of the forward phase of `Saga.execute`: the (in-place updated)
steps list, the invocation trace, and `some (k, exc)` when the action at
absolute index `k` raised `exc`. -/
structure ForwardOutcome where
  items : List Item
  events : List Event
  failure : Option (Nat × Exc)

/-- The forward loop of `Saga.execute`: walks the steps at increasing index,
skipping non-`Action` elements, threading `args`, and on action success
setting `compensation_args` and `result` together; stops at the first action
exception. -/
def forwardLoop : List Item → Nat → List Value → ForwardOutcome
  | [], _, _ => ⟨[], [], Option.none⟩
  | Item.other :: rest, idx, args =>
    let o := forwardLoop rest (idx + 1) args
    ⟨Item.other :: o.items, o.events, o.failure⟩
  | Item.step a :: rest, idx, args =>
    match a.act args with
    | Except.ok v =>
      let o := forwardLoop rest (idx + 1) (normalize v)
      ⟨Item.step { a with compensation_args := Option.some (normalize v), result := v } :: o.items,
        Event.actCall idx (a.actPassedArgs args) :: o.events, o.failure⟩
    | Except.error exc =>
      ⟨Item.step a :: rest, [Event.actCall idx (a.actPassedArgs args)], Option.some (idx, exc)⟩

/-- The framing line Python inserts between the tracebacks of an exception and
of the exception raised while handling it. -/
def chainMarker : String := "During handling of the above exception, another exception occurred:"

/-- Line-level model of `s.partition(marker)[2]`: everything after the FIRST
occurrence of the framing line, and the empty trace when it does not occur. -/
def partitionAfter : List String → List String
  | [] => []
  | l :: rest => if l = chainMarker then rest else partitionAfter rest

/-- One iteration body of `_run_compensations` at index `i`: indexing
`self.steps[i]` and calling `.compensate()` on it.  A non-`Action` element has
no `compensate` attribute, so the lookup raises `AttributeError` (caught by
the surrounding `except`); an out-of-range index raises `IndexError`. -/
def compAt (items : List Item) (i : Nat) : Option (List Value) × Except Exc Value :=
  match items.get? i with
  | Option.some (Item.step a) => a.compensateTr
  | Option.some Item.other => (Option.none, Except.error attributeError)
  | Option.none => (Option.none, Except.error indexError)

/-- Dictionary entry recorded by `_run_compensations` for index `i` given the
compensation outcome: failures are stored with the traceback that
`format_exc().partition(marker)[2]` yields while the action exception `actionTb`
is being handled (so the chained rendering is `actionTb`, the framing line,
then the compensation exception's own trace). -/
def compEntryOf (i : Nat) (actionTb : List String) (r : Except Exc Value) :
    List (Nat × Exc × List String) :=
  match r with
  | Except.ok _ => []
  | Except.error exc => [(i, exc, partitionAfter (actionTb ++ chainMarker :: exc.tb))]

/-- Trace events of one `_run_compensations` iteration: a `compCall` exactly
when the compensation callable was actually called. -/
def compEventsOf (i : Nat) (p : Option (List Value)) : List Event :=
  match p with
  | Option.some xs => [Event.compCall i xs]
  | Option.none => []

/-- The loop of `_run_compensations` over a list of indices, accumulating the
compensation-errors dictionary (in insertion order) and the trace. -/
def compLoop (items : List Item) (actionTb : List String) :
    List Nat → List (Nat × Exc × List String) × List Event
  | [] => ([], [])
  | i :: rest =>
    let r := compAt items i
    let t := compLoop items actionTb rest
    (compEntryOf i actionTb r.2 ++ t.1, compEventsOf i r.1 ++ t.2)

/-- `range(last_action_index - 1, -1, -1)`: the indices `last-1, ..., 1, 0`. -/
def downRange (k : Nat) : List Nat := (List.range k).reverse

/-- `Saga._run_compensations(last_action_index)`, run over the post-forward
steps while the action exception (standalone trace `actionTb`) is being
handled. -/
def run_compensations (items : List Item) (last : Nat) (actionTb : List String) :
    List (Nat × Exc × List String) × List Event :=
  compLoop items actionTb (downRange last)

/-- The `SagaError` exception of `src/saga.py`; the dictionary is an
association list in insertion order (descending step indices). -/
structure SagaError where
  failed_step_index : Nat
  action_exception : Exc
  action_traceback : List String
  compensation_exception_tracebacks : List (Nat × Exc × List String)

/-- The `Saga` dataclass: an ordered list of step slots. -/
structure Saga where
  steps : List Item

/-- `Saga.execute`, instrumented with the invocation trace: the forward loop
from index 0 with no arguments; on forward failure at `k`, run the
compensations and raise a `SagaError` built from the failed index, the action
exception and its trace, and the accumulated compensation dictionary; on
success return the saga with its updated steps. -/
def Saga.executeTr (s : Saga) : Except SagaError Saga × List Event :=
  let o := forwardLoop s.steps 0 []
  match o.failure with
  | Option.none => (Except.ok ⟨o.items⟩, o.events)
  | Option.some (k, exc) =>
    let c := run_compensations o.items k exc.tb
    (Except.error ⟨k, exc, exc.tb, c.1⟩, o.events ++ c.2)

/-- `Saga.execute`: the caller-visible outcome. -/
def Saga.execute (s : Saga) : Except SagaError Saga := s.executeTr.1

/-- `SagaError.format_traceback_indentation`: when the traceback spans more
than one line, each line is prefixed by `indent` spaces and a marker glyph;
a single-line traceback is returned unchanged. -/
def format_traceback_indentation (tb : List String) (indent : Nat) : String :=
  if 1 < tb.length then
    String.intercalate "\n" (tb.map (fun l => String.mk (List.replicate indent ' ') ++ "╎" ++ l))
  else String.intercalate "\n" tb

/-- The string built by `SagaError.__str__`: header, failed-step detail with
the indented action traceback, and, only when the compensation dictionary is
nonempty, one block per failed compensation; joined by blank lines and
stripped of surrounding whitespace. -/
def SagaError.strBody (se : SagaError) : String :=
  let header_msg :=
    "A critical error occurred during the saga execution, leading to transaction failure and compensation attempts."
  let error_detail_msg :=
    "Transaction failed at step index " ++ toString se.failed_step_index ++
      ": An unexpected " ++ se.action_exception.name ++
      " occurred, triggering the compensation process." ++ "\n" ++
      format_traceback_indentation se.action_traceback 2
  let compensation_error_msgs :=
    if se.compensation_exception_tracebacks.isEmpty then ""
    else
      "Compensations encountered errors:\n" ++
        String.intercalate "\n"
          (se.compensation_exception_tracebacks.map (fun p =>
            "  - (step index " ++ toString p.1 ++ "): Compensation failed due to a " ++
              p.2.1.name ++ ": " ++ p.2.1.msg ++ "\n" ++
              format_traceback_indentation p.2.2 6))
  (String.intercalate "\n\n" [header_msg, error_detail_msg, compensation_error_msgs]).trim

/-- `SagaError.__str__` as a state transformer on the receiver: the source
reads fields and performs no assignment, so the post-state is the receiver. -/
def SagaError.render (se : SagaError) : String × SagaError := (se.strBody, se)

/-- Holds at index `i` when the forward phase did not fail at or before `i`:
the action of a step slot at `i` ran and succeeded. -/
def stepSucceeded (o : ForwardOutcome) (i : Nat) : Prop :=
  ∀ k e, o.failure = Option.some (k, e) → i < k

/-! ### Concrete callables, exceptions and sagas used to evaluate the engine -/

/-- Nullary action returning `1`. -/
def okInt1 : Callable := ⟨0, 0, fun _ => Except.ok (Value.int 1)⟩

/-- Unary action returning `2`. -/
def okInt2 : Callable := ⟨1, 0, fun _ => Except.ok (Value.int 2)⟩

/-- Nullary compensation that succeeds. -/
def compOk0 : Callable := ⟨0, 0, fun _ => Except.ok Value.none⟩

/-- Unary compensation that succeeds. -/
def compOk1 : Callable := ⟨1, 0, fun _ => Except.ok Value.none⟩

/-- A `ValueError` raised by a forward action. -/
def boomExc : Exc :=
  ⟨"ValueError", "boom", ["Traceback (most recent call last):", "ValueError: boom"]⟩

/-- Unary action raising `boomExc`. -/
def failAct1 : Callable := ⟨1, 0, fun _ => Except.error boomExc⟩

/-- Nullary action raising `boomExc`. -/
def failAct0 : Callable := ⟨0, 0, fun _ => Except.error boomExc⟩

/-- Fresh step with a nullary succeeding action. -/
def stepA : Action := { action := okInt1, compensation := compOk0 }

/-- Fresh step with a unary succeeding action. -/
def stepB : Action := { action := okInt2, compensation := compOk1 }

/-- Fresh step whose unary action raises. -/
def stepFail : Action := { action := failAct1, compensation := compOk0 }

/-- Saga whose first two actions succeed and whose third action raises. -/
def sagaC1 : Saga := ⟨[Item.step stepA, Item.step stepB, Item.step stepFail]⟩

/-- Saga whose two actions both succeed. -/
def sagaC6 : Saga := ⟨[Item.step stepA, Item.step stepB]⟩

/-- A `RuntimeError` raised by a compensation. -/
def compBoom : Exc :=
  ⟨"RuntimeError", "comp boom", ["Traceback (most recent call last):", "RuntimeError: comp boom"]⟩

/-- Unary compensation raising `compBoom`. -/
def compFail1 : Callable := ⟨1, 0, fun _ => Except.error compBoom⟩

/-- Post-forward step at index 0: action succeeded, compensation succeeds. -/
def stepC5a : Action :=
  { action := okInt1, compensation := compOk0,
    compensation_args := Option.some [], result := Value.int 1 }

/-- Post-forward step at index 1: action succeeded, compensation raises `compBoom`. -/
def stepC5b : Action :=
  { action := okInt2, compensation := compFail1,
    compensation_args := Option.some [Value.int 2], result := Value.int 2 }

/-- Post-forward steps list with a failing compensation at index 1. -/
def itemsC5 : List Item := [Item.step stepC5a, Item.step stepC5b]

/-- Action traceback used when applying the compensation-trace theorem. -/
def atbC8 : List String := ["Traceback (most recent call last):", "KeyError: oops"]

/-- An action traceback that itself contains the chained-exception framing
line (the action's exception was itself a chained exception). -/
def atbBad : List String := ["ValueError: inner", chainMarker, "RuntimeError: outer"]

/-- A compensation exception whose own traceback contains the framing line
(the compensation's exception was itself a chained exception). -/
def compBoomChained : Exc :=
  ⟨"RuntimeError", "chained", ["RuntimeError: first", chainMarker, "RuntimeError: second"]⟩

/-- A compensation exception with an empty rendered traceback. -/
def compBoomEmpty : Exc := ⟨"RuntimeError", "silent", []⟩

/-- Post-forward step whose nullary compensation raises `compBoomChained`. -/
def stepC8b : Action :=
  { action := okInt1, compensation := ⟨0, 0, fun _ => Except.error compBoomChained⟩,
    compensation_args := Option.some [], result := Value.int 1 }

/-- Post-forward steps list for the chained-compensation-trace scenario. -/
def itemsC8b : List Item := [Item.step stepC8b]

/-- Post-forward step whose nullary compensation raises `compBoomEmpty`. -/
def stepC8c : Action :=
  { action := okInt1, compensation := ⟨0, 0, fun _ => Except.error compBoomEmpty⟩,
    compensation_args := Option.some [], result := Value.int 1 }

/-- Post-forward steps list for the empty-compensation-trace scenario. -/
def itemsC8c : List Item := [Item.step stepC8c]

/-- The `validate_payment` signature of `src/saga.py`: zero declared
parameters, but two local variables (`client`, `response`) in
`__code__.co_varnames`. -/
def validatePaymentSig : Callable :=
  ⟨0, 2, fun _ => Except.ok (Value.dict [("payment_id", Value.int 2)])⟩

/-- Step whose zero-parameter action has local variables. -/
def stepC3 : Action := { action := validatePaymentSig, compensation := compOk1 }

/-- Saga whose first element is not an `Action` instance and whose second
element is a step with a failing nullary action. -/
def sagaC10 : Saga :=
  ⟨[Item.other, Item.step { action := failAct0, compensation := compOk0 }]⟩

/-- Saga all of whose elements are non-`Action` values. -/
def sagaAllOther : Saga := ⟨[Item.other, Item.other]⟩

/-! ### Helper lemmas -/

/-- Dropping everything through the first framing line: when the prefix does
not contain the framing line, the part after it is returned unchanged. -/
theorem partitionAfter_append (xs ys : List String) (h : chainMarker ∉ xs) :
    partitionAfter (xs ++ chainMarker :: ys) = ys := by
  induction xs with
  | nil => simp [partitionAfter]
  | cons x xs ih =>
    simp only [List.mem_cons, not_or] at h
    have hx : ¬ x = chainMarker := fun hh => h.1 hh.symm
    simpa [partitionAfter, hx] using ih h.2

/-- A step whose `compensation_args` field is set never fails the argument
spread of `Action.compensate`. -/
theorem compPassedArgs_isOk (a : Action) (xs : List Value)
    (h : a.compensation_args = Option.some xs) :
    ∃ ys, a.compPassedArgs = Except.ok ys := by
  unfold Action.compPassedArgs
  rw [h]
  split
  · exact ⟨xs, rfl⟩
  · exact ⟨[], rfl⟩

/-- At an index holding a step with `compensation_args` set, the compensation
callable is actually called. -/
theorem compAt_fst_some (items : List Item) (i : Nat) (a : Action) (xs : List Value)
    (hi : items.get? i = Option.some (Item.step a))
    (hargs : a.compensation_args = Option.some xs) :
    ∃ ys, (compAt items i).1 = Option.some ys := by
  obtain ⟨ys, hys⟩ := compPassedArgs_isOk a xs hargs
  have hc : compAt items i = a.compensateTr := by unfold compAt; rw [hi]
  exact ⟨ys, by rw [hc]; simp [Action.compensateTr, hys]⟩

/-- The forward phase emits only action-invocation events. -/
theorem fl_events_actOnly (items : List Item) (idx : Nat) (args : List Value) :
    ∀ e ∈ (forwardLoop items idx args).events, ∃ i ar, e = Event.actCall i ar := by
  induction items generalizing idx args with
  | nil => intro e he; simp [forwardLoop] at he
  | cons hd tl ih =>
    intro e he
    cases hd with
    | other =>
      simp only [forwardLoop] at he
      exact ih (idx + 1) args e he
    | step a =>
      cases hact : a.act args with
      | ok v =>
        simp only [forwardLoop, hact] at he
        rcases List.mem_cons.mp he with rfl | hmem
        · exact ⟨idx, a.actPassedArgs args, rfl⟩
        · exact ih (idx + 1) (normalize v) e hmem
      | error exc =>
        simp only [forwardLoop, hact, List.mem_singleton] at he
        exact ⟨idx, a.actPassedArgs args, he⟩

/-- A trace consisting only of action invocations has no compensation
invocation indices. -/
theorem compCallIdxs_of_actOnly (evs : List Event)
    (h : ∀ e ∈ evs, ∃ i ar, e = Event.actCall i ar) : compCallIdxs evs = [] := by
  induction evs with
  | nil => rfl
  | cons e rest ih =>
    obtain ⟨i, ar, rfl⟩ := h e (List.mem_cons_self e rest)
    simpa [compCallIdxs, List.filterMap_cons] using
      ih (fun x hx => h x (List.mem_cons_of_mem _ hx))

/-- `compCallIdxs` distributes over trace concatenation. -/
theorem compCallIdxs_append (xs ys : List Event) :
    compCallIdxs (xs ++ ys) = compCallIdxs xs ++ compCallIdxs ys := by
  simp [compCallIdxs, List.filterMap_append]

/-- Membership in the descending compensation range. -/
theorem mem_downRange (i k : Nat) : i ∈ downRange k ↔ i < k := by
  simp [downRange]

/-- When every listed index actually calls its compensation, the trace of the
compensation loop records exactly those indices, in loop order. -/
theorem compLoop_callIdxs (items : List Item) (atb : List String) (L : List Nat)
    (h : ∀ i ∈ L, ∃ xs, (compAt items i).1 = Option.some xs) :
    compCallIdxs (compLoop items atb L).2 = L := by
  induction L with
  | nil => rfl
  | cons i rest ih =>
    obtain ⟨xs, hxs⟩ := h i (List.mem_cons_self i rest)
    have hrest := ih (fun j hj => h j (List.mem_cons_of_mem _ hj))
    have h2 : (compLoop items atb (i :: rest)).2
        = compEventsOf i (compAt items i).1 ++ (compLoop items atb rest).2 := rfl
    rw [h2, hxs, compCallIdxs_append, hrest]
    rfl

/-- A failing compensation at a listed index is recorded in the dictionary
under that index, with the partitioned chained traceback. -/
theorem compLoop_lookup_fail (items : List Item) (atb : List String) (j : Nat) (e : Exc)
    (hfail : (compAt items j).2 = Except.error e) :
    ∀ L : List Nat, j ∈ L →
      (compLoop items atb L).1.lookup j =
        Option.some (e, partitionAfter (atb ++ chainMarker :: e.tb)) := by
  intro L
  induction L with
  | nil => intro hmem; cases hmem
  | cons i rest ih =>
    intro hmem
    by_cases hij : i = j
    · subst hij
      simp [compLoop, compEntryOf, hfail, List.lookup_cons]
    · have hmem2 : j ∈ rest := by
        rcases List.mem_cons.mp hmem with rfl | hr
        · exact absurd rfl hij
        · exact hr
      have hne : (j == i) = false := beq_false_of_ne (fun hh => hij hh.symm)
      cases hr2 : (compAt items i).2 with
      | ok w => simpa [compLoop, compEntryOf, hr2] using ih hmem2
      | error exc => simpa [compLoop, compEntryOf, hr2, List.lookup_cons, hne] using ih hmem2

/-- A succeeding compensation is entirely absent from the dictionary. -/
theorem compLoop_lookup_ok (items : List Item) (atb : List String) (i : Nat) (w : Value)
    (hok : (compAt items i).2 = Except.ok w) :
    ∀ L : List Nat, (compLoop items atb L).1.lookup i = Option.none := by
  intro L
  induction L with
  | nil => rfl
  | cons h rest ih =>
    by_cases hhi : h = i
    · subst hhi
      simpa [compLoop, compEntryOf, hok] using ih
    · have hne : (i == h) = false := beq_false_of_ne (fun hh => hhi hh.symm)
      cases hr2 : (compAt items h).2 with
      | ok w2 => simpa [compLoop, compEntryOf, hr2] using ih
      | error exc => simpa [compLoop, compEntryOf, hr2, List.lookup_cons, hne] using ih

/-- A compensation that is actually called at a listed index leaves its
invocation in the trace. -/
theorem compLoop_events_mem (items : List Item) (atb : List String) (i : Nat) (xs : List Value)
    (hx : (compAt items i).1 = Option.some xs) :
    ∀ L : List Nat, i ∈ L → Event.compCall i xs ∈ (compLoop items atb L).2 := by
  intro L
  induction L with
  | nil => intro hmem; cases hmem
  | cons h rest ih =>
    intro hmem
    by_cases hhi : h = i
    · subst hhi
      exact List.mem_append_left _ (by simp [compEventsOf, hx])
    · have hmem2 : i ∈ rest := by
        rcases List.mem_cons.mp hmem with rfl | hr
        · exact absurd rfl hhi
        · exact hr
      exact List.mem_append_right _ (ih hmem2)

/-- A saga whose elements are all non-`Action` values is traversed by the
forward phase without any invocation, mutation or failure. -/
theorem fl_all_other (items : List Item) (idx : Nat) (args : List Value)
    (h : ∀ it ∈ items, it = Item.other) :
    forwardLoop items idx args = ⟨items, [], Option.none⟩ := by
  induction items generalizing idx with
  | nil => rfl
  | cons hd tl ih =>
    have hhd := h hd (List.mem_cons_self hd tl)
    subst hhd
    simp [forwardLoop, ih (idx + 1) (fun it hit => h it (List.mem_cons_of_mem _ hit))]

/-- Characterization of a forward-phase failure at absolute index `k`: the
failure index lies in range; every earlier slot was either a step whose action
succeeded (its `compensation_args` and `result` then set together from the
normalized result) or a skipped non-`Action` element, both left in place; the
failing slot is a step whose action raised `e`; and the failing slot and
everything after it are unchanged. -/
theorem fl_fail_detail (items : List Item) (idx : Nat) (args : List Value) (k : Nat) (e : Exc)
    (h : (forwardLoop items idx args).failure = Option.some (k, e)) :
    idx ≤ k ∧ k - idx < items.length ∧
    (∀ i, i < k - idx →
      (∃ a ar v, items.get? i = Option.some (Item.step a) ∧ a.act ar = Except.ok v ∧
        (forwardLoop items idx args).items.get? i =
          Option.some (Item.step
            { a with compensation_args := Option.some (normalize v), result := v })) ∨
      (items.get? i = Option.some Item.other ∧
        (forwardLoop items idx args).items.get? i = Option.some Item.other)) ∧
    (∃ a ar, items.get? (k - idx) = Option.some (Item.step a) ∧ a.act ar = Except.error e) ∧
    (∀ i, k - idx ≤ i → (forwardLoop items idx args).items.get? i = items.get? i) := by
  induction items generalizing idx args with
  | nil => simp [forwardLoop] at h
  | cons hd tl ih =>
    cases hd with
    | other =>
      have h' : (forwardLoop tl (idx + 1) args).failure = Option.some (k, e) := h
      obtain ⟨ih1, ih2, ih3, ih4, ih5⟩ := ih (idx + 1) args h'
      refine ⟨by omega, ?_, ?_, ?_, ?_⟩
      · simp only [List.length_cons]; omega
      · intro i hi
        cases i with
        | zero => exact Or.inr ⟨rfl, rfl⟩
        | succ j =>
          have hj : j < k - (idx + 1) := by omega
          exact ih3 j hj
      · obtain ⟨a, ar, h1, h2⟩ := ih4
        have hsub : k - idx = (k - (idx + 1)) + 1 := by omega
        rw [hsub]
        exact ⟨a, ar, h1, h2⟩
      · intro i hi
        cases i with
        | zero => exact absurd hi (by omega)
        | succ j =>
          have hj : k - (idx + 1) ≤ j := by omega
          exact ih5 j hj
    | step a =>
      cases hact : a.act args with
      | ok v =>
        have hbig : forwardLoop (Item.step a :: tl) idx args =
            ⟨Item.step { a with compensation_args := Option.some (normalize v), result := v } ::
                (forwardLoop tl (idx + 1) (normalize v)).items,
              Event.actCall idx (a.actPassedArgs args) ::
                (forwardLoop tl (idx + 1) (normalize v)).events,
              (forwardLoop tl (idx + 1) (normalize v)).failure⟩ := by
          simp only [forwardLoop, hact]
        have h' : (forwardLoop tl (idx + 1) (normalize v)).failure = Option.some (k, e) := by
          rw [hbig] at h; exact h
        obtain ⟨ih1, ih2, ih3, ih4, ih5⟩ := ih (idx + 1) (normalize v) h'
        refine ⟨by omega, ?_, ?_, ?_, ?_⟩
        · simp only [List.length_cons]; omega
        · intro i hi
          cases i with
          | zero => exact Or.inl ⟨a, args, v, rfl, hact, by rw [hbig]; rfl⟩
          | succ j =>
            have hj : j < k - (idx + 1) := by omega
            rw [hbig]
            exact ih3 j hj
        · obtain ⟨b, ar, h1, h2⟩ := ih4
          have hsub : k - idx = (k - (idx + 1)) + 1 := by omega
          rw [hsub]
          exact ⟨b, ar, h1, h2⟩
        · intro i hi
          cases i with
          | zero => exact absurd hi (by omega)
          | succ j =>
            have hj : k - (idx + 1) ≤ j := by omega
            rw [hbig]
            exact ih5 j hj
      | error exc =>
        have hfl : forwardLoop (Item.step a :: tl) idx args =
            ⟨Item.step a :: tl, [Event.actCall idx (a.actPassedArgs args)],
              Option.some (idx, exc)⟩ := by
          simp only [forwardLoop, hact]
        rw [hfl] at h
        have h2 : Option.some (idx, exc) = Option.some (k, e) := h
        obtain ⟨rfl, rfl⟩ : idx = k ∧ exc = e := by simpa using h2
        refine ⟨Nat.le_refl idx, ?_, ?_, ?_, ?_⟩
        · simp [Nat.sub_self]
        · intro i hi
          exact absurd hi (by omega)
        · refine ⟨a, args, ?_, hact⟩
          rw [Nat.sub_self]
          rfl
        · intro i hi
          rw [hfl]

/-- Characterization of a fully successful forward phase: every step slot's
action was invoked and succeeded on the inputs it received, its
`compensation_args` and `result` were set together from the normalized
result, and the invocation is in the trace. -/
theorem fl_success (items : List Item) (idx : Nat) (args : List Value)
    (h : (forwardLoop items idx args).failure = Option.none) (i : Nat) (a : Action)
    (hstep : items.get? i = Option.some (Item.step a)) :
    ∃ ar v, a.act ar = Except.ok v ∧
      (forwardLoop items idx args).items.get? i =
        Option.some (Item.step
          { a with compensation_args := Option.some (normalize v), result := v }) ∧
      Event.actCall (idx + i) (a.actPassedArgs ar) ∈ (forwardLoop items idx args).events := by
  induction items generalizing idx args i with
  | nil => exact Option.noConfusion hstep
  | cons hd tl ih =>
    cases hd with
    | other =>
      have h' : (forwardLoop tl (idx + 1) args).failure = Option.none := h
      cases i with
      | zero =>
        injection hstep with h2
        exact Item.noConfusion h2
      | succ j =>
        obtain ⟨ar, v, h1, h2, h3⟩ := ih (idx + 1) args h' j hstep
        refine ⟨ar, v, h1, h2, ?_⟩
        have heq : (idx + 1) + j = idx + (j + 1) := by omega
        exact heq ▸ h3
    | step b =>
      cases hact : b.act args with
      | error exc =>
        have hfl : (forwardLoop (Item.step b :: tl) idx args).failure =
            Option.some (idx, exc) := by
          simp only [forwardLoop, hact]
        rw [hfl] at h
        exact Option.noConfusion h
      | ok v =>
        have hbig : forwardLoop (Item.step b :: tl) idx args =
            ⟨Item.step { b with compensation_args := Option.some (normalize v), result := v } ::
                (forwardLoop tl (idx + 1) (normalize v)).items,
              Event.actCall idx (b.actPassedArgs args) ::
                (forwardLoop tl (idx + 1) (normalize v)).events,
              (forwardLoop tl (idx + 1) (normalize v)).failure⟩ := by
          simp only [forwardLoop, hact]
        have h' : (forwardLoop tl (idx + 1) (normalize v)).failure = Option.none := by
          rw [hbig] at h; exact h
        cases i with
        | zero =>
          have hba : b = a := by
            have h2 : Option.some (Item.step b) = Option.some (Item.step a) := hstep
            simpa using h2
          subst hba
          refine ⟨args, v, hact, by rw [hbig]; rfl, ?_⟩
          rw [hbig]
          have hz : idx + 0 = idx := Nat.add_zero idx
          rw [hz]
          exact List.mem_cons_self _ _
        | succ j =>
          obtain ⟨ar, v2, h1, h2, h3⟩ := ih (idx + 1) (normalize v) h' j hstep
          refine ⟨ar, v2, h1, by rw [hbig]; exact h2, ?_⟩
          rw [hbig]
          have heq : (idx + 1) + j = idx + (j + 1) := by omega
          exact List.mem_cons_of_mem _ (heq ▸ h3)

/-! ### Claim theorems -/

/-- Claim C1: in a saga whose elements are all steps, if the forward phase
fails at index `k` (steps `0..k-1` all succeeded and step `k`'s action
raised), then the compensations invoked during the run are exactly those of
steps `k-1, k-2, ..., 0`, in that strictly descending order, and no
compensation of step `k` or of any later step is ever invoked. -/
theorem C1_compensation_reverse_order (s : Saga) (k : Nat) (exc : Exc)
    (hsteps : ∀ it ∈ s.steps, ∃ a, it = Item.step a)
    (hfail : (forwardLoop s.steps 0 []).failure = Option.some (k, exc)) :
    compCallIdxs s.executeTr.2 = downRange k ∧
    ∀ i ∈ compCallIdxs s.executeTr.2, i < k := by
  have hev : s.executeTr.2 =
      (forwardLoop s.steps 0 []).events ++
        (run_compensations (forwardLoop s.steps 0 []).items k exc.tb).2 := by
    simp only [Saga.executeTr, hfail]
  obtain ⟨h1, h2, h3, h4, h5⟩ := fl_fail_detail s.steps 0 [] k exc hfail
  have hpre : ∀ i ∈ downRange k,
      ∃ xs, (compAt (forwardLoop s.steps 0 []).items i).1 = Option.some xs := by
    intro i hi
    have hik : i < k - 0 := by
      have := (mem_downRange i k).mp hi
      omega
    rcases h3 i hik with ⟨a, ar, v, ha, hv, hout⟩ | ⟨ho, _⟩
    · exact compAt_fst_some _ i _ (normalize v) hout rfl
    · obtain ⟨b, hb⟩ := hsteps Item.other (List.get?_mem ho)
      exact Item.noConfusion hb
  have hforward : compCallIdxs (forwardLoop s.steps 0 []).events = [] :=
    compCallIdxs_of_actOnly _ (fl_events_actOnly s.steps 0 [])
  have hmain : compCallIdxs s.executeTr.2 = downRange k := by
    rw [hev, compCallIdxs_append, hforward, List.nil_append]
    exact compLoop_callIdxs _ exc.tb (downRange k) hpre
  exact ⟨hmain, fun i hi => (mem_downRange i k).mp (hmain ▸ hi)⟩

/-- Witness for C1: in the concrete saga whose third action raises after two
successes, the compensations invoked are exactly those of indices 1 then 0. -/
theorem C1_witness :
    (forwardLoop sagaC1.steps 0 []).failure = Option.some (2, boomExc) ∧
    compCallIdxs sagaC1.executeTr.2 = downRange 2 := by
  refine ⟨rfl, ?_⟩
  exact (C1_compensation_reverse_order sagaC1 2 boomExc
    (by
      intro it hit
      simp only [sagaC1, List.mem_cons, List.not_mem_nil, or_false] at hit
      rcases hit with rfl | rfl | rfl
      · exact ⟨stepA, rfl⟩
      · exact ⟨stepB, rfl⟩
      · exact ⟨stepFail, rfl⟩) rfl).1

/-- Claim C2: when the forward phase fails at index `k` with exception `exc`,
`execute` raises exactly one exception, a `SagaError` whose
`failed_step_index` is `k`, which carries the original action exception and
its trace and the full compensation-errors mapping produced by the completed
compensation phase; in the run's trace all compensation invocations occur
before the error is produced, i.e. the error is built only after the whole
compensation phase. -/
theorem C2_single_failure_exception (s : Saga) (k : Nat) (exc : Exc)
    (hfail : (forwardLoop s.steps 0 []).failure = Option.some (k, exc)) :
    s.execute = Except.error
      { failed_step_index := k, action_exception := exc, action_traceback := exc.tb,
        compensation_exception_tracebacks :=
          (run_compensations (forwardLoop s.steps 0 []).items k exc.tb).1 } ∧
    s.executeTr.2 = (forwardLoop s.steps 0 []).events ++
      (run_compensations (forwardLoop s.steps 0 []).items k exc.tb).2 ∧
    ∃ a ar, s.steps.get? k = Option.some (Item.step a) ∧ a.act ar = Except.error exc := by
  refine ⟨?_, ?_, ?_⟩
  · simp only [Saga.execute, Saga.executeTr, hfail]
  · simp only [Saga.executeTr, hfail]
  · have h := (fl_fail_detail s.steps 0 [] k exc hfail).2.2.2.1
    simpa using h

/-- Witness for C2: the concrete saga failing at index 2 raises a `SagaError`
with `failed_step_index = 2`, the original exception and trace, and an empty
compensation-errors mapping (both compensations succeeded). -/
theorem C2_witness :
    sagaC1.execute = Except.error
      { failed_step_index := 2, action_exception := boomExc, action_traceback := boomExc.tb,
        compensation_exception_tracebacks := [] } :=
  (C2_single_failure_exception sagaC1 2 boomExc rfl).1

/-- Claim C4: on action success the engine threads the normalized result —
the updated step records `compensation_args` and `result`, the next iteration
receives `normalize v` as its inputs — and normalization maps `None` to no
arguments, a list/tuple to its elements, and any other value to a
one-element sequence containing it. -/
theorem C4_result_normalization (a : Action) (rest : List Item) (idx : Nat)
    (args : List Value) (v : Value) (h : a.act args = Except.ok v) :
    forwardLoop (Item.step a :: rest) idx args =
      ⟨Item.step { a with compensation_args := Option.some (normalize v), result := v } ::
          (forwardLoop rest (idx + 1) (normalize v)).items,
        Event.actCall idx (a.actPassedArgs args) ::
          (forwardLoop rest (idx + 1) (normalize v)).events,
        (forwardLoop rest (idx + 1) (normalize v)).failure⟩ ∧
    normalize Value.none = [] ∧
    (∀ xs, normalize (Value.list xs) = xs) ∧
    (∀ w, w ≠ Value.none → (∀ ys, w ≠ Value.list ys) → normalize w = [w]) := by
  refine ⟨by simp only [forwardLoop, h], rfl, fun xs => rfl, ?_⟩
  intro w h1 h2
  cases w with
  | none => exact absurd rfl h1
  | list ys => exact absurd rfl (h2 ys)
  | int n => rfl
  | str t => rfl
  | dict kvs => rfl

/-- Witness for C4: a unary action returning the scalar `2` yields the
one-element `compensation_args` and next-step inputs `[2]`. -/
theorem C4_witness :
    stepB.act [Value.int 7] = Except.ok (Value.int 2) ∧
    forwardLoop [Item.step stepB] 0 [Value.int 7] =
      ⟨[Item.step
          { stepB with
            compensation_args := Option.some [Value.int 2], result := Value.int 2 }],
        [Event.actCall 0 [Value.int 7]], Option.none⟩ :=
  ⟨rfl, (C4_result_normalization stepB [] 0 [Value.int 7] (Value.int 2) rfl).1⟩

/-- Claim C6: when every action succeeds, `execute` returns the saga normally
(no exception), and every step's `result` field equals the value its action
returned for the inputs that step actually received. -/
theorem C6_success_returns_results (s : Saga)
    (h : (forwardLoop s.steps 0 []).failure = Option.none) :
    s.execute = Except.ok ⟨(forwardLoop s.steps 0 []).items⟩ ∧
    ∀ i a, s.steps.get? i = Option.some (Item.step a) →
      ∃ ar v, a.act ar = Except.ok v ∧
        (forwardLoop s.steps 0 []).items.get? i =
          Option.some (Item.step
            { a with compensation_args := Option.some (normalize v), result := v }) ∧
        Event.actCall i (a.actPassedArgs ar) ∈ s.executeTr.2 := by
  have hev : s.executeTr.2 = (forwardLoop s.steps 0 []).events := by
    simp only [Saga.executeTr, h]
  refine ⟨by simp only [Saga.execute, Saga.executeTr, h], ?_⟩
  intro i a hstep
  obtain ⟨ar, v, h1, h2, h3⟩ := fl_success s.steps 0 [] h i a hstep
  refine ⟨ar, v, h1, h2, ?_⟩
  rw [hev]
  simpa using h3

/-- Witness for C6: the concrete two-step all-success saga returns normally
with each step's `result` set to its action's return value. -/
theorem C6_witness :
    sagaC6.execute = Except.ok
      ⟨[Item.step
          { stepA with
            compensation_args := Option.some [Value.int 1], result := Value.int 1 },
        Item.step
          { stepB with
            compensation_args := Option.some [Value.int 2], result := Value.int 2 }]⟩ :=
  (C6_success_returns_results sagaC6 rfl).1

/-- Claim C5: in the compensation phase over indices below `k`, a compensation
failure at index `j` is recorded under key `j` (with the exception and the
trace the code computes for it); every index below `j` whose compensation is
callable is still invoked; and any index whose compensation succeeds is
entirely absent from the mapping. -/
theorem C5_compensation_error_recording (items : List Item) (atb : List String)
    (k j : Nat) (a : Action) (e : Exc)
    (hj : j < k) (hitem : items.get? j = Option.some (Item.step a))
    (hfail : a.compensate = Except.error e) :
    (run_compensations items k atb).1.lookup j =
      Option.some (e, partitionAfter (atb ++ chainMarker :: e.tb)) ∧
    (∀ i b xs, i < j → items.get? i = Option.some (Item.step b) →
      b.compPassedArgs = Except.ok xs →
      Event.compCall i xs ∈ (run_compensations items k atb).2) ∧
    (∀ i b w, items.get? i = Option.some (Item.step b) → b.compensate = Except.ok w →
      (run_compensations items k atb).1.lookup i = Option.none) := by
  have hcj : (compAt items j).2 = Except.error e := by
    have hc : compAt items j = a.compensateTr := by unfold compAt; rw [hitem]
    rw [hc]; exact hfail
  refine ⟨?_, ?_, ?_⟩
  · exact compLoop_lookup_fail items atb j e hcj (downRange k) ((mem_downRange j k).mpr hj)
  · intro i b xs hij hib hxs
    have hci : (compAt items i).1 = Option.some xs := by
      have hc : compAt items i = b.compensateTr := by unfold compAt; rw [hib]
      rw [hc]
      simp [Action.compensateTr, hxs]
    exact compLoop_events_mem items atb i xs hci (downRange k)
      ((mem_downRange i k).mpr (by omega))
  · intro i b w hib hok
    have hci : (compAt items i).2 = Except.ok w := by
      have hc : compAt items i = b.compensateTr := by unfold compAt; rw [hib]
      rw [hc]; exact hok
    exact compLoop_lookup_ok items atb i w hci (downRange k)

/-- Witness for C5: with a failing compensation at index 1 and a succeeding
one at index 0, the mapping records index 1, the compensation at index 0 is
still invoked, and index 0 is absent from the mapping. -/
theorem C5_witness :
    (run_compensations itemsC5 2 boomExc.tb).1.lookup 1 =
      Option.some (compBoom, compBoom.tb) ∧
    Event.compCall 0 [] ∈ (run_compensations itemsC5 2 boomExc.tb).2 ∧
    (run_compensations itemsC5 2 boomExc.tb).1.lookup 0 = Option.none := by
  have h := C5_compensation_error_recording itemsC5 boomExc.tb 2 1 stepC5b compBoom
    (by omega) rfl rfl
  refine ⟨h.1, ?_, ?_⟩
  · exact h.2.1 0 stepC5a [] (by omega) rfl rfl
  · exact h.2.2 0 stepC5a Value.none rfl rfl

/-- Claim C7: for a step starting from the dataclass defaults,
`compensation_args` and `result` are set together, exactly when that step's
action succeeded in the run; a step whose action did not run or raised keeps
both fields at their initial `None` values. -/
theorem C7_fields_set_together (s : Saga) (i : Nat) (a : Action)
    (hfresh : a.compensation_args = Option.none ∧ a.result = Value.none)
    (hstep : s.steps.get? i = Option.some (Item.step a)) :
    ∃ a2, (forwardLoop s.steps 0 []).items.get? i = Option.some (Item.step a2) ∧
      (stepSucceeded (forwardLoop s.steps 0 []) i →
        ∃ ar v, a.act ar = Except.ok v ∧
          a2.compensation_args = Option.some (normalize v) ∧ a2.result = v) ∧
      (¬ stepSucceeded (forwardLoop s.steps 0 []) i →
        a2.compensation_args = Option.none ∧ a2.result = Value.none) := by
  cases hf : (forwardLoop s.steps 0 []).failure with
  | none =>
    obtain ⟨ar, v, h1, h2, h3⟩ := fl_success s.steps 0 [] hf i a hstep
    refine ⟨_, h2, fun _ => ⟨ar, v, h1, rfl, rfl⟩, fun hns => absurd ?_ hns⟩
    intro k e hke
    rw [hf] at hke
    exact Option.noConfusion hke
  | some p =>
    obtain ⟨k, exc⟩ := p
    obtain ⟨h1, h2, h3, h4, h5⟩ := fl_fail_detail s.steps 0 [] k exc hf
    by_cases hik : i < k
    · have hik0 : i < k - 0 := by omega
      rcases h3 i hik0 with ⟨b, ar, v, hb, hv, hout⟩ | ⟨ho, _⟩
      · have hba : b = a := by
          have hcomb := hb.symm.trans hstep
          simpa using hcomb
        subst hba
        refine ⟨_, hout, fun _ => ⟨ar, v, hv, rfl, rfl⟩, fun hns => absurd ?_ hns⟩
        intro k' e' hk'
        rw [hf] at hk'
        obtain ⟨rfl, rfl⟩ : k = k' ∧ exc = e' := by simpa using hk'
        exact hik
      · have hcomb := ho.symm.trans hstep
        exact absurd hcomb (by simp)
    · have hge : k - 0 ≤ i := by omega
      have hout := h5 i hge
      rw [hstep] at hout
      exact ⟨a, hout, fun hs => absurd (hs k exc hf) hik, fun _ => hfresh⟩

/-- Witness for C7: step 0 of the all-success saga ends with both fields set
together from its action's result. -/
theorem C7_witness :
    ∃ a2, (forwardLoop sagaC6.steps 0 []).items.get? 0 = Option.some (Item.step a2) ∧
      (stepSucceeded (forwardLoop sagaC6.steps 0 []) 0 →
        ∃ ar v, stepA.act ar = Except.ok v ∧
          a2.compensation_args = Option.some (normalize v) ∧ a2.result = v) ∧
      (¬ stepSucceeded (forwardLoop sagaC6.steps 0 []) 0 →
        a2.compensation_args = Option.none ∧ a2.result = Value.none) :=
  C7_fields_set_together sagaC6 0 stepA ⟨rfl, rfl⟩ rfl

/-- Counterexample for C8: the code partitions the chained rendering at the
FIRST occurrence of the framing line.  (a) When the action's own traceback
contains the framing line (the action exception was itself chained), the
recorded compensation trace still contains the framing line and a fragment of
the action trace.  (b) When the compensation exception's own traceback
contains the framing line, it is stored with the framing line included.
(c) When the compensation's standalone traceback is empty, the stored trace is
empty even though the compensation raised. -/
theorem C8_counterexample_chained_trace :
    (run_compensations itemsC5 2 atbBad).1.lookup 1 =
      Option.some (compBoom, "RuntimeError: outer" :: chainMarker :: compBoom.tb) ∧
    chainMarker ∈ "RuntimeError: outer" :: chainMarker :: compBoom.tb ∧
    (run_compensations itemsC8b 1 atbC8).1.lookup 0 =
      Option.some (compBoomChained, compBoomChained.tb) ∧
    chainMarker ∈ compBoomChained.tb ∧
    (run_compensations itemsC8c 1 atbC8).1.lookup 0 =
      Option.some (compBoomEmpty, []) := by
  refine ⟨rfl, ?_, rfl, ?_, rfl⟩
  · exact List.mem_cons_of_mem _ (List.mem_cons_self _ _)
  · exact List.mem_cons_of_mem _ (List.mem_cons_self _ _)

/-- Claim C8 (amended): provided the action traceback does not itself contain
the framing line, and the compensation exception's standalone traceback is
nonempty and framing-free, the recorded trace is exactly that clean,
standalone compensation traceback. -/
theorem C8_clean_trace_amended (items : List Item) (atb : List String) (k j : Nat)
    (a : Action) (e : Exc)
    (hj : j < k) (hitem : items.get? j = Option.some (Item.step a))
    (hfail : a.compensate = Except.error e)
    (hm1 : chainMarker ∉ atb) (hm2 : chainMarker ∉ e.tb) (hne : e.tb ≠ []) :
    (run_compensations items k atb).1.lookup j = Option.some (e, e.tb) ∧
    chainMarker ∉ e.tb ∧ e.tb ≠ [] := by
  have hcj : (compAt items j).2 = Except.error e := by
    have hc : compAt items j = a.compensateTr := by unfold compAt; rw [hitem]
    rw [hc]; exact hfail
  have h := compLoop_lookup_fail items atb j e hcj (downRange k)
    ((mem_downRange j k).mpr hj)
  rw [partitionAfter_append atb e.tb hm1] at h
  exact ⟨h, hm2, hne⟩

/-- Witness for the amended C8: with an unchained action traceback and an
ordinary compensation traceback, the stored trace is the clean standalone
compensation traceback. -/
theorem C8_witness :
    (run_compensations itemsC5 2 atbC8).1.lookup 1 = Option.some (compBoom, compBoom.tb) ∧
    chainMarker ∉ compBoom.tb ∧ compBoom.tb ≠ [] :=
  C8_clean_trace_amended itemsC5 atbC8 2 1 stepC5b compBoom (by omega) rfl rfl
    (by decide) (by decide) (by decide)

/-- Claim C9: `SagaError.__str__` is a pure, side-effect-free rendering — it
leaves every field of the failure unchanged and rendering twice yields the
identical string. -/
theorem C9_render_pure (se : SagaError) :
    se.render.2 = se ∧ se.render.2.render.1 = se.render.1 ∧ se.render.1 = se.strBody :=
  ⟨rfl, rfl, rfl⟩

/-- Claim C3 fails on the code: the source gates argument passing on the
truthiness of `__code__.co_varnames`, which also counts local variables.
Evaluated at the signature of the repo's own `validate_payment` (zero
declared parameters, two local variables), `Action.act` passes the supplied
input anyway and the call raises `TypeError` — contradicting "a
zero-parameter action ignores all inputs". -/
theorem C3_code_bug_co_varnames :
    validatePaymentSig.params = 0 ∧
    stepC3.actPassedArgs [Value.dict [("order_id", Value.int 1)]] =
      [Value.dict [("order_id", Value.int 1)]] ∧
    stepC3.act [Value.dict [("order_id", Value.int 1)]] = Except.error typeError :=
  ⟨rfl, rfl, rfl⟩

/-- Counterexample for C10: a saga whose first element is not an `Action`
instance and whose second element's action raises.  The non-`Action` element
is not silently skipped by the whole run: the compensation phase attempts it
and the raised `SagaError` records an `AttributeError` under index 0. -/
theorem C10_counterexample_nonstep_comp_error :
    sagaC10.execute = Except.error
      { failed_step_index := 1, action_exception := boomExc, action_traceback := boomExc.tb,
        compensation_exception_tracebacks := [(0, attributeError, attributeError.tb)] } :=
  rfl

/-- Claim C10 (amended): in the forward phase a non-`Action` element is
skipped — left in place, nothing invoked, threaded inputs unchanged — and a
saga containing only non-`Action` elements completes successfully with
nothing executed; the compensation phase, however, does attempt non-`Action`
elements below a failed index (see the counterexample). -/
theorem C10_forward_skip_amended (s : Saga) (rest : List Item) (idx : Nat)
    (args : List Value) (h : ∀ it ∈ s.steps, it = Item.other) :
    forwardLoop (Item.other :: rest) idx args =
      ⟨Item.other :: (forwardLoop rest (idx + 1) args).items,
        (forwardLoop rest (idx + 1) args).events,
        (forwardLoop rest (idx + 1) args).failure⟩ ∧
    s.execute = Except.ok s ∧ s.executeTr.2 = [] := by
  have hfa := fl_all_other s.steps 0 [] h
  refine ⟨rfl, ?_, ?_⟩
  · simp only [Saga.execute, Saga.executeTr, hfa]
  · simp only [Saga.executeTr, hfa]

/-- Witness for the amended C10: a saga of two non-`Action` elements returns
itself unchanged with an empty invocation trace. -/
theorem C10_witness :
    sagaAllOther.execute = Except.ok sagaAllOther ∧ sagaAllOther.executeTr.2 = [] := by
  have h := C10_forward_skip_amended sagaAllOther [] 0 []
    (by
      intro it hit
      simp only [sagaAllOther, List.mem_cons, List.not_mem_nil, or_false] at hit
      rcases hit with rfl | rfl <;> rfl)
  exact ⟨h.2.1, h.2.2⟩

end SagaOrch
